import Mathlib

/-!
Verification of the proxy runtime module (src/assembly/runtime.ts).

This file gives a shallow embedding of the parts of the runtime that the
verified properties talk about: the header codec (serializeHeaders,
deserializeHeaders, pairsSize), the host-allocated output slot
(ArrayBufferReference.toArrayBuffer), the status-swallowing accessors
(get_header_map_value, get_header_map_flat_pairs, get_buffer_bytes), the
async http-call correlation table on RootContext (httpCall,
onHttpCallResponse, cancelPendingRequests, onDone) and the context
registry (ensureRootContext, ensureContext, registerRootContext).

Modelling conventions:
- An ArrayBuffer is a `List Nat` of byte values; a Uint8Array store wraps
  its argument modulo 256, and a Uint32Array store wraps modulo 2^32 and
  lays the value out in four little-endian bytes (wasm is little-endian).
- An AssemblyScript `Map` is an association list in insertion order:
  `set` updates the first matching key in place or appends a fresh pair at
  the end, `delete` removes the pair, `values` is the value column in
  insertion order. These are exactly the semantics the runtime relies on.
- Host boundary calls are abstracted by passing the host outcome (status
  code, token, filled buffer contents) as explicit arguments; the module
  code on each side of the boundary call is translated faithfully.
- Closures stored in the tables (continuations, factories) are modelled
  by opaque numeric identities plus an explicit event log of invocations,
  since the claims are about which continuation is invoked, how often and
  with which arguments.
-/

namespace ProxyRuntime

/-- Status codes returned by every boundary call
(enum WasmResultValues, runtime.ts lines 89-113). -/
inductive WasmResultValues where
  | Ok
  | NotFound
  | BadArgument
  | SerializationFailure
  | ParseFailure
  | BadExpression
  | InvalidMemoryAccess
  | Empty
  | CasMismatch
  | ResultMismatch
  | InternalFailure
  | BrokenConnection
deriving DecidableEq, Repr

/-- Numeric value of each status code, as declared in the source enum. -/
def WasmResultValues.code : WasmResultValues → Nat
  | .Ok => 0
  | .NotFound => 1
  | .BadArgument => 2
  | .SerializationFailure => 3
  | .ParseFailure => 4
  | .BadExpression => 5
  | .InvalidMemoryAccess => 6
  | .Empty => 7
  | .CasMismatch => 8
  | .ResultMismatch => 9
  | .InternalFailure => 10
  | .BrokenConnection => 11

/-- Header map selector (enum HeaderMapTypeValues, runtime.ts lines 155-166). -/
inductive HeaderMapTypeValues where
  | RequestHeaders
  | RequestTrailers
  | ResponseHeaders
  | ResponseTrailers
  | GrpcCreateInitialMetadata
  | GrpcReceiveInitialMetadata
  | GrpcReceiveTrailingMetadata
  | HttpCallResponseHeaders
  | HttpCallResponseTrailers
deriving DecidableEq, Repr

/-- Buffer selector (enum BufferTypeValues, runtime.ts lines 167-175). -/
inductive BufferTypeValues where
  | HttpRequestBody
  | HttpResponseBody
  | NetworkDownstreamData
  | NetworkUpstreamData
  | HttpCallResponseBody
  | GrpcReceiveBuffer
deriving DecidableEq, Repr

/-! ### AssemblyScript Map, modelled as an insertion-ordered association list -/

/-- Map.get / Map.has: value stored at the first pair whose key matches. -/
def mget {α β : Type} [DecidableEq α] : List (α × β) → α → Option β
  | [], _ => none
  | p :: rest, k => if p.1 = k then some p.2 else mget rest k

/-- Map.set: update the matching pair in place, or append a fresh pair. -/
def mset {α β : Type} [DecidableEq α] : List (α × β) → α → β → List (α × β)
  | [], k, v => [(k, v)]
  | p :: rest, k, v => if p.1 = k then (k, v) :: rest else p :: mset rest k v

/-- Map.delete: remove the pair with the given key, keeping order. -/
def mdel {α β : Type} [DecidableEq α] : List (α × β) → α → List (α × β)
  | [], _ => []
  | p :: rest, k => if p.1 = k then mdel rest k else p :: mdel rest k

theorem mget_mset_self {α β : Type} [DecidableEq α] (m : List (α × β)) (k : α) (v : β) :
    mget (mset m k v) k = some v := by
  induction m with
  | nil => simp [mset, mget]
  | cons p rest ih =>
    by_cases h : p.1 = k
    · simp [mset, h, mget]
    · simp [mset, h, mget, ih]

theorem mget_mset_ne {α β : Type} [DecidableEq α] (m : List (α × β)) (k k' : α) (v : β)
    (h : k' ≠ k) : mget (mset m k v) k' = mget m k' := by
  induction m with
  | nil => simp [mset, mget, Ne.symm h]
  | cons p rest ih =>
    by_cases hp : p.1 = k
    · simp [mset, hp, mget, Ne.symm h]
    · simp [mset, hp, mget, ih]

theorem mset_of_not_mem {α β : Type} [DecidableEq α] (m : List (α × β)) (k : α) (v : β)
    (h : mget m k = none) : mset m k v = m ++ [(k, v)] := by
  induction m with
  | nil => simp [mset]
  | cons p rest ih =>
    by_cases hp : p.1 = k
    · simp [mget, hp] at h
    · simp [mget, hp] at h
      simp [mset, hp, ih h]

theorem mget_mdel_self {α β : Type} [DecidableEq α] (m : List (α × β)) (k : α) :
    mget (mdel m k) k = none := by
  induction m with
  | nil => simp [mdel, mget]
  | cons p rest ih =>
    by_cases hp : p.1 = k
    · simp [mdel, hp, ih]
    · simp [mdel, hp, mget, ih]

theorem mget_mdel_ne {α β : Type} [DecidableEq α] (m : List (α × β)) (k k' : α)
    (h : k' ≠ k) : mget (mdel m k) k' = mget m k' := by
  induction m with
  | nil => simp [mdel, mget]
  | cons p rest ih =>
    by_cases hp : p.1 = k
    · simp [mdel, hp, mget, Ne.symm h, ih]
    · simp [mdel, hp, mget, ih]

/-! ### Header codec (runtime.ts lines 76-85 and 225-304)

An ArrayBuffer is a `List Nat` of bytes.  A u32 store through a
Uint32Array view writes the value modulo 2^32 as four little-endian
bytes; a u32 load reads four bytes back.  `serializeHeaders` allocates a
zero-initialised buffer of `pairsSize` bytes, writes the pair count, the
flat (keyLength, valueLength) table, and then copies each key and value,
leaving the zero byte after each one as the sentinel; the functional
translation below produces that buffer directly as a concatenation. -/

/-- HeaderPair (runtime.ts lines 76-83): a key/value pair of byte buffers. -/
structure HeaderPair where
  key : List Nat
  value : List Nat
deriving DecidableEq, Repr

/-- Headers = Array of HeaderPair (runtime.ts line 85). -/
abbrev Headers := List HeaderPair

/-- Little-endian four-byte layout of a u32 store of `n` (value taken mod 2^32). -/
def u32le (n : Nat) : List Nat :=
  [n % 2 ^ 32 % 2 ^ 8, n % 2 ^ 32 / 2 ^ 8 % 2 ^ 8,
   n % 2 ^ 32 / 2 ^ 16 % 2 ^ 8, n % 2 ^ 32 / 2 ^ 24 % 2 ^ 8]

/-- Little-endian u32 load of the four bytes at `off` (missing bytes read as 0;
every load performed by the codec on a codec-produced buffer is in bounds). -/
def readU32 (buf : List Nat) (off : Nat) : Nat :=
  buf.getD off 0 + 2 ^ 8 * buf.getD (off + 1) 0 +
    2 ^ 16 * buf.getD (off + 2) 0 + 2 ^ 24 * buf.getD (off + 3) 0

/-- pairsSize (runtime.ts lines 225-235): size of the serialized buffer —
4 bytes of count, then per header 8 bytes of sizes plus the
nil-terminated key and value payloads. -/
def pairsSize (headers : Headers) : Nat :=
  headers.foldl
    (fun size h => size + 8 + (h.key.length + 1) + (h.value.length + 1)) 4

/-- The flat size table written by serializeHeaders (runtime.ts lines 242-252):
for each header its key length then its value length, each as a u32. -/
def lengthTable : Headers → List Nat
  | [] => []
  | h :: rest => u32le h.key.length ++ u32le h.value.length ++ lengthTable rest

/-- The payload region written by serializeHeaders (runtime.ts lines 254-274):
each key then each value, byte for byte (a Uint8Array store wraps mod 256),
each followed by the zero sentinel byte left by the allocation. -/
def payloadBytes : Headers → List Nat
  | [] => []
  | h :: rest =>
      h.key.map (fun b => b % 2 ^ 8) ++ [0] ++
      h.value.map (fun b => b % 2 ^ 8) ++ [0] ++ payloadBytes rest

/-- serializeHeaders (runtime.ts lines 237-276): count, size table, payload. -/
def serializeHeaders (headers : Headers) : List Nat :=
  u32le headers.length ++ lengthTable headers ++ payloadBytes headers

/-- The decoding loop of deserializeHeaders (runtime.ts lines 286-301):
`sizes[j]` of the source is the u32 at byte offset `4 + 4*j` of the whole
buffer, `data.slice(a, b)` is take/drop on the payload region, and the
running `dataIndex` skips one sentinel byte after each key and value. -/
def deserializeLoop (buf data : List Nat) : Nat → Nat → Nat → Headers
  | 0, _, _ => []
  | n + 1, sizeIndex, dataIndex =>
      let keySize := readU32 buf (4 + 4 * sizeIndex)
      let key := (data.drop dataIndex).take keySize
      let valueSize := readU32 buf (4 + 4 * (sizeIndex + 1))
      let value := (data.drop (dataIndex + keySize + 1)).take valueSize
      ⟨key, value⟩ ::
        deserializeLoop buf data n (sizeIndex + 2)
          (dataIndex + keySize + 1 + valueSize + 1)

/-- deserializeHeaders (runtime.ts lines 278-304): read the count, view the
size table, slice off the payload region, and run the decoding loop. -/
def deserializeHeaders (buf : List Nat) : Headers :=
  let numheaders := readU32 buf 0
  let data := buf.drop (4 * (1 + 2 * numheaders))
  deserializeLoop buf data numheaders 0 0

/-- A header pair whose lengths fit a u32 and whose entries are bytes, which
is an invariant of every ArrayBuffer in the AssemblyScript runtime. -/
def wellFormedHeader (h : HeaderPair) : Prop :=
  h.key.length < 2 ^ 32 ∧ h.value.length < 2 ^ 32 ∧
    (∀ b ∈ h.key, b < 2 ^ 8) ∧ (∀ b ∈ h.value, b < 2 ^ 8)

instance (h : HeaderPair) : Decidable (wellFormedHeader h) := by
  unfold wellFormedHeader; infer_instance

theorem u32le_length (n : Nat) : (u32le n).length = 4 := by
  simp [u32le]

theorem readU32_shift (pre rest : List Nat) (off : Nat) (h : pre.length = off) :
    readU32 (pre ++ rest) off = readU32 rest 0 := by
  subst h
  unfold readU32
  rw [List.getD_append_right _ _ _ _ (Nat.le_refl _),
    List.getD_append_right _ _ _ _ (Nat.le_add_right _ _),
    List.getD_append_right _ _ _ _ (Nat.le_add_right _ _),
    List.getD_append_right _ _ _ _ (Nat.le_add_right _ _)]
  simp

theorem readU32_u32le (n : Nat) (rest : List Nat) :
    readU32 (u32le n ++ rest) 0 = n % 2 ^ 32 := by
  simp only [u32le, readU32, List.cons_append, List.nil_append, List.getD]
  simp only [List.get?, Option.getD_some]
  omega

theorem readU32_at (pre suf : List Nat) (n off : Nat) (h : pre.length = off) :
    readU32 (pre ++ (u32le n ++ suf)) off = n % 2 ^ 32 := by
  rw [readU32_shift _ _ _ h, readU32_u32le]

theorem lengthTable_length (headers : Headers) :
    (lengthTable headers).length = 8 * headers.length := by
  induction headers with
  | nil => simp [lengthTable]
  | cons h rest ih => simp [lengthTable, u32le_length, ih]; omega

theorem lengthTable_append (a b : Headers) :
    lengthTable (a ++ b) = lengthTable a ++ lengthTable b := by
  induction a with
  | nil => simp [lengthTable]
  | cons h rest ih => simp [lengthTable, ih]

theorem payloadBytes_append (a b : Headers) :
    payloadBytes (a ++ b) = payloadBytes a ++ payloadBytes b := by
  induction a with
  | nil => simp [payloadBytes]
  | cons h rest ih => simp [payloadBytes, ih]

theorem map_byte_id (l : List Nat) (h : ∀ b ∈ l, b < 2 ^ 8) :
    l.map (fun b => b % 2 ^ 8) = l := by
  rw [List.map_congr_left (fun b hb => Nat.mod_eq_of_lt (h b hb))]
  exact List.map_id' _

/-- The decoding loop, run on a serialized buffer after having already
consumed an arbitrary prefix `done` of the headers, recovers the remaining
headers. -/
theorem deserializeLoop_eq (rest : Headers) :
    ∀ done : Headers, (∀ x ∈ rest, wellFormedHeader x) →
    deserializeLoop (serializeHeaders (done ++ rest)) (payloadBytes (done ++ rest))
      rest.length (2 * done.length) (payloadBytes done).length = rest := by
  induction rest with
  | nil => intro done _; simp [deserializeLoop]
  | cons h rest ih =>
    intro done hw
    have hwh : wellFormedHeader h := hw h (by simp)
    have hbuf1 : serializeHeaders (done ++ h :: rest) =
        (u32le (done ++ h :: rest).length ++ lengthTable done) ++
          (u32le h.key.length ++ (u32le h.value.length ++
            (lengthTable rest ++ payloadBytes (done ++ h :: rest)))) := by
      conv_lhs => rw [serializeHeaders,
        show done ++ h :: rest = done ++ [h] ++ rest by simp,
        lengthTable_append, lengthTable_append]
      simp [lengthTable, List.append_assoc]
    have hpre1 : (u32le (done ++ h :: rest).length ++ lengthTable done).length =
        4 + 4 * (2 * done.length) := by
      simp [u32le_length, lengthTable_length]; omega
    have hkey : readU32 (serializeHeaders (done ++ h :: rest))
        (4 + 4 * (2 * done.length)) = h.key.length := by
      rw [hbuf1, readU32_at _ _ _ _ hpre1, Nat.mod_eq_of_lt hwh.1]
    have hbuf2 : serializeHeaders (done ++ h :: rest) =
        ((u32le (done ++ h :: rest).length ++ lengthTable done) ++ u32le h.key.length) ++
          (u32le h.value.length ++
            (lengthTable rest ++ payloadBytes (done ++ h :: rest))) := by
      rw [hbuf1]; simp [List.append_assoc]
    have hpre2 : ((u32le (done ++ h :: rest).length ++ lengthTable done) ++
        u32le h.key.length).length = 4 + 4 * (2 * done.length + 1) := by
      simp [u32le_length, lengthTable_length]; omega
    have hval : readU32 (serializeHeaders (done ++ h :: rest))
        (4 + 4 * (2 * done.length + 1)) = h.value.length := by
      rw [hbuf2, readU32_at _ _ _ _ hpre2, Nat.mod_eq_of_lt hwh.2.1]
    have hdata : payloadBytes (done ++ h :: rest) =
        payloadBytes done ++
          (h.key.map (fun b => b % 2 ^ 8) ++ ([0] ++
            (h.value.map (fun b => b % 2 ^ 8) ++ ([0] ++ payloadBytes rest)))) := by
      conv_lhs => rw [show done ++ h :: rest = done ++ [h] ++ rest by simp,
        payloadBytes_append, payloadBytes_append]
      simp [payloadBytes, List.append_assoc]
    have hkslice : ((payloadBytes (done ++ h :: rest)).drop
        (payloadBytes done).length).take h.key.length = h.key := by
      rw [hdata, List.drop_left,
        List.take_left' (by simp : (h.key.map (fun b => b % 2 ^ 8)).length = h.key.length),
        map_byte_id _ hwh.2.2.1]
    have hdata2 : payloadBytes (done ++ h :: rest) =
        (payloadBytes done ++ h.key.map (fun b => b % 2 ^ 8) ++ [0]) ++
          (h.value.map (fun b => b % 2 ^ 8) ++ ([0] ++ payloadBytes rest)) := by
      rw [hdata]; simp [List.append_assoc]
    have hpre3 : (payloadBytes done ++ h.key.map (fun b => b % 2 ^ 8) ++ [0]).length =
        (payloadBytes done).length + h.key.length + 1 := by
      simp
      omega
    have hvslice : ((payloadBytes (done ++ h :: rest)).drop
        ((payloadBytes done).length + h.key.length + 1)).take h.value.length = h.value := by
      rw [hdata2, List.drop_left' hpre3,
        List.take_left' (by simp : (h.value.map (fun b => b % 2 ^ 8)).length = h.value.length),
        map_byte_id _ hwh.2.2.2]
    have htail := ih (done ++ [h]) (fun x hx => hw x (by simp [hx]))
    have harg1 : done ++ [h] ++ rest = done ++ h :: rest := by simp
    have harg2 : 2 * (done ++ [h]).length = 2 * done.length + 2 := by simp; omega
    have harg3 : (payloadBytes (done ++ [h])).length =
        (payloadBytes done).length + h.key.length + 1 + h.value.length + 1 := by
      rw [payloadBytes_append]
      simp [payloadBytes]
      omega
    rw [harg1, harg2, harg3] at htail
    simp only [List.length_cons, deserializeLoop]
    rw [hkey, hval, hkslice, hvslice, htail]

/-- Decoding a serialized buffer recovers the original header list. -/
theorem serialize_deserialize (headers : Headers) (hn : headers.length < 2 ^ 32)
    (hw : ∀ h ∈ headers, wellFormedHeader h) :
    deserializeHeaders (serializeHeaders headers) = headers := by
  have hred : deserializeHeaders (serializeHeaders headers) =
      deserializeLoop (serializeHeaders headers)
        ((serializeHeaders headers).drop
          (4 * (1 + 2 * readU32 (serializeHeaders headers) 0)))
        (readU32 (serializeHeaders headers) 0) 0 0 := rfl
  have hnum : readU32 (serializeHeaders headers) 0 = headers.length := by
    rw [serializeHeaders, List.append_assoc, readU32_u32le, Nat.mod_eq_of_lt hn]
  have hdrop : (serializeHeaders headers).drop (4 * (1 + 2 * headers.length)) =
      payloadBytes headers := by
    rw [serializeHeaders]
    rw [List.drop_left' (by simp [u32le_length, lengthTable_length]; omega)]
  rw [hred, hnum, hdrop]
  simpa using deserializeLoop_eq headers [] hw

/-! ### Output slot (class ArrayBufferReference, runtime.ts lines 41-69)

The slot is a pair of cells the host fills with the address and size of a
buffer it allocated.  `toArrayBuffer` converts the filled slot into an
owned buffer; the conversion is modelled with an explicit log of the
pointers passed to `free`, and it returns the slot as well, making
explicit that the source mutates neither field (there is no poisoning of
the slot after a conversion). -/

/-- The two fields of the output slot, both filled by the host. -/
structure ArrayBufferReference where
  buffer : Nat
  size : Nat
deriving DecidableEq, Repr

/-- Result of a slot conversion: a fresh empty buffer (`new ArrayBuffer(0)`)
or the host-allocated buffer reinterpreted from its raw pointer. -/
inductive ABResult where
  | emptyBuffer
  | fromPtr (p : Nat)
deriving DecidableEq, Repr

/-- toArrayBuffer (runtime.ts lines 57-68): on size 0 return a fresh empty
buffer; otherwise reinterpret the raw pointer as a buffer and release the
host allocation.  Returns (result, pointers freed, slot afterwards). -/
def ArrayBufferReference.toArrayBuffer (r : ArrayBufferReference) :
    ABResult × List Nat × ArrayBufferReference :=
  if r.size = 0 then (.emptyBuffer, [], r)
  else (.fromPtr r.buffer, [r.buffer], r)

/-! ### Status-swallowing accessors (runtime.ts lines 484-497 and 538-546)

Each accessor invokes a boundary call that fills the global output slot
and returns a status.  The host outcome is abstracted as the returned
status plus the byte contents the host put in the slot; the accessor
returns those contents on Ok and a zero-length buffer otherwise. -/

/-- get_header_map_value (runtime.ts lines 484-490). -/
def get_header_map_value (typ : HeaderMapTypeValues) (key : List Nat)
    (result : WasmResultValues) (filled : List Nat) : List Nat :=
  if result = WasmResultValues.Ok then filled else []

/-- get_header_map_flat_pairs (runtime.ts lines 491-497). -/
def get_header_map_flat_pairs (typ : HeaderMapTypeValues)
    (result : WasmResultValues) (filled : List Nat) : List Nat :=
  if result = WasmResultValues.Ok then filled else []

/-- get_buffer_bytes (runtime.ts lines 538-546). -/
def get_buffer_bytes (typ : BufferTypeValues) (start length : Nat)
    (result : WasmResultValues) (filled : List Nat) : List Nat :=
  if result = WasmResultValues.Ok then filled else []

/-! ### Async call correlation (RootContext, runtime.ts lines 745-883)

The pending-call table `http_calls_` maps a host token to an HttpCallback
(originating context and continuation).  Contexts and continuation
closures are identified by opaque numbers; invoking a continuation is
recorded as a CallEvent carrying the arguments of the invocation. -/

/-- HttpCallback (runtime.ts lines 724-731): originating context and the
continuation to resume, both by identity. -/
structure HttpCallback where
  origin_context : Nat
  cb : Nat
deriving DecidableEq, Repr

/-- One continuation invocation `cb(origin_context, headers, body_size,
trailers)` as performed by onHttpCallResponse and cancelPendingRequests. -/
structure CallEvent where
  cb : Nat
  origin_context : Nat
  headers : Nat
  body_size : Nat
  trailers : Nat
deriving DecidableEq, Repr

/-- The pending-call table `http_calls_` of a RootContext. -/
abbrev PendingTable := List (Nat × HttpCallback)

/-- RootContext.httpCall (runtime.ts lines 853-866): the boundary call
outcome is abstracted as `result` and the host-written `token`; on Ok the
callback is stored under the token, otherwise the table is left as it
was, and the status is returned either way. -/
def httpCall (m : PendingTable) (result : WasmResultValues) (token : Nat)
    (origin_context cb : Nat) : WasmResultValues × PendingTable :=
  if result = WasmResultValues.Ok then
    (result, mset m token ⟨origin_context, cb⟩)
  else
    (result, m)

/-- RootContext.cancelPendingRequests (runtime.ts lines 782-797): invoke
every stored continuation with the sentinel arguments (0, 0, 0) in table
order, then clear the table. -/
def cancelPendingRequests (m : PendingTable) : List CallEvent × PendingTable :=
  (m.map (fun p => ⟨p.2.cb, p.2.origin_context, 0, 0, 0⟩), [])

/-- RootContext.onDone (runtime.ts lines 833-837): cancel all pending
requests and report completion with `true`. -/
def RootContext.onDone (m : PendingTable) :
    (List CallEvent × PendingTable) × Bool :=
  (cancelPendingRequests m, true)

/-- RootContext.onHttpCallResponse (runtime.ts lines 868-883): if the token
is registered, remove it and invoke its continuation with the delivered
handles; otherwise log an error (last component `true`) and change
nothing. -/
def onHttpCallResponse (m : PendingTable) (token headers body_size trailers : Nat) :
    List CallEvent × PendingTable × Bool :=
  match mget m token with
  | some callback =>
      ([⟨callback.cb, callback.origin_context, headers, body_size, trailers⟩],
        mdel m token, false)
  | none => ([], m, true)

/-- A sequence of successfully issued calls (token, origin context,
continuation), folded through `httpCall` with an Ok host status each time. -/
def issueAll (calls : List (Nat × Nat × Nat)) (m : PendingTable) : PendingTable :=
  calls.foldl (fun t c => (httpCall t WasmResultValues.Ok c.1 c.2.1 c.2.2).2) m

/-! ### Context registry (runtime.ts lines 999-1058 and 1126-1130)

`context_map` maps a context id to the context object stored for it;
objects are identified by a creation counter `nextObj`, so two ids hold
the same logical instance exactly when they hold the same number.  The
root-factory table maps a plugin root name to a registered factory
identity; invoking a factory (or a root createContext) allocates the next
object identity, and `factoryCalls` counts factory invocations.  The
plugin root name read from the property store by get_plugin_root_id is
passed in as the `root_id` argument. -/

/-- The mutable registry state: `context_map`, the object-identity
allocator and the factory-invocation counter. -/
structure RuntimeState where
  context_map : List (Nat × Nat)
  nextObj : Nat
  factoryCalls : Nat
deriving DecidableEq, Repr

/-- registerRootContext (runtime.ts lines 1126-1130): store the factory
under its name in `root_context_factory_map`. -/
def registerRootContext (factories : List (String × Nat)) (factory : Nat)
    (name : String) : List (String × Nat) :=
  mset factories name factory

/-- ensureRootContext (runtime.ts lines 1012-1029): return the context
already stored for the id; otherwise look up the factory registered for
the plugin root name, failing with the missing-factory error if there is
none, and store a freshly created root context under the id. -/
def ensureRootContext (factories : List (String × Nat)) (root_id : String)
    (s : RuntimeState) (root_context_id : Nat) :
    Except String (Nat × RuntimeState) :=
  match mget s.context_map root_context_id with
  | some obj => .ok (obj, s)
  | none =>
      match mget factories root_id with
      | none => .error ("Missing root context factory for root id: " ++ root_id)
      | some _ =>
          .ok (s.nextObj,
            ⟨mset s.context_map root_context_id s.nextObj,
              s.nextObj + 1, s.factoryCalls + 1⟩)

/-- ensureContext (runtime.ts lines 1032-1044): ensure the root context
first; if the stream id is already registered return with no further
change, otherwise store a fresh child context created by the root. -/
def ensureContext (factories : List (String × Nat)) (root_id : String)
    (s : RuntimeState) (context_id root_context_id : Nat) :
    Except String RuntimeState :=
  match ensureRootContext factories root_id s root_context_id with
  | .error e => .error e
  | .ok (_, s1) =>
      match mget s1.context_map context_id with
      | some _ => .ok s1
      | none =>
          .ok ⟨mset s1.context_map context_id s1.nextObj,
            s1.nextObj + 1, s1.factoryCalls⟩

/-! ### Supporting lemmas for the claims -/

/-- Issuing calls with distinct tokens and an Ok host status each time
appends the corresponding callbacks to the table in order. -/
theorem issueAll_eq (calls : List (Nat × Nat × Nat)) :
    ∀ m : PendingTable, (∀ c ∈ calls, mget m c.1 = none) →
    (calls.map Prod.fst).Nodup →
    issueAll calls m = m ++ calls.map (fun c => (c.1, ⟨c.2.1, c.2.2⟩)) := by
  induction calls with
  | nil => intro m _ _; simp [issueAll]
  | cons c cs ih =>
    intro m hdis hnodup
    rw [List.map_cons, List.nodup_cons] at hnodup
    have hstep : issueAll (c :: cs) m =
        issueAll cs (mset m c.1 ⟨c.2.1, c.2.2⟩) := by
      simp [issueAll, httpCall]
    have hne : ∀ x ∈ cs, x.1 ≠ c.1 := by
      intro x hx hc
      exact hnodup.1 (hc ▸ List.mem_map_of_mem Prod.fst hx)
    rw [hstep, ih (mset m c.1 ⟨c.2.1, c.2.2⟩)
      (fun x hx => by
        rw [mget_mset_ne m c.1 x.1 _ (hne x hx)]
        exact hdis x (List.mem_cons_of_mem c hx))
      hnodup.2]
    rw [mset_of_not_mem m c.1 _ (hdis c (List.mem_cons_self c cs))]
    simp

/-- A successful ensureContext call leaves the stream id registered. -/
theorem ensureContext_registers (factories : List (String × Nat))
    (root_id : String) (s : RuntimeState) (cid rid : Nat) (s1 : RuntimeState)
    (h : ensureContext factories root_id s cid rid = .ok s1) :
    (mget s1.context_map cid).isSome := by
  unfold ensureContext at h
  cases he : ensureRootContext factories root_id s rid with
  | error e => rw [he] at h; exact absurd h (by simp)
  | ok p =>
    obtain ⟨pobj, ps⟩ := p
    simp only [he] at h
    cases hc : mget ps.context_map cid with
    | some o =>
      rw [hc] at h
      simp only [Except.ok.injEq] at h
      rw [← h, hc]
      rfl
    | none =>
      rw [hc] at h
      simp only [Except.ok.injEq] at h
      rw [← h]
      simp [mget_mset_self]

/-! ### The claims -/

/-- Claim C1: for every ordered list of (key, value) byte-pairs, including
the empty list and pairs with zero-length key or value, decoding the
encoding (deserializeHeaders after serializeHeaders) yields the original
list.  The hypotheses state the ArrayBuffer invariants of the runtime:
entries are bytes and every length fits in the u32 fields of the wire
format. -/
theorem headerCodec_roundtrip (headers : Headers)
    (hn : headers.length < 2 ^ 32)
    (hw : ∀ h ∈ headers, wellFormedHeader h) :
    deserializeHeaders (serializeHeaders headers) = headers :=
  serialize_deserialize headers hn hw

/-- Witness for C1 at a concrete list with a zero-length key and value. -/
theorem headerCodec_roundtrip_witness :
    ([⟨[120, 45, 97], [49]⟩, ⟨[], []⟩] : Headers).length < 2 ^ 32 ∧
    (∀ h ∈ ([⟨[120, 45, 97], [49]⟩, ⟨[], []⟩] : Headers), wellFormedHeader h) ∧
    deserializeHeaders (serializeHeaders [⟨[120, 45, 97], [49]⟩, ⟨[], []⟩]) =
      [⟨[120, 45, 97], [49]⟩, ⟨[], []⟩] :=
  ⟨by decide, by decide, headerCodec_roundtrip _ (by decide) (by decide)⟩

/-- The header list of the scenario in the spec: [("x-a","1"),("x-b","")]
as byte buffers. -/
def scenarioHeaders : Headers :=
  [⟨[120, 45, 97], [49]⟩, ⟨[120, 45, 98], []⟩]

/-- Claim C2, counterexample: the byte layout the claim states, with length
table [1, 1, 1, 0], is not what serializeHeaders produces — the keys
"x-a" and "x-b" have length 3, so the length table is [3, 1, 3, 0]. -/
theorem scenarioLayout_counterexample :
    serializeHeaders scenarioHeaders ≠
      u32le 2 ++ (u32le 1 ++ u32le 1 ++ u32le 1 ++ u32le 0) ++
        ([120, 45, 97] ++ [0] ++ [49] ++ [0] ++ [120, 45, 98] ++ [0] ++ [0]) := by
  decide

/-- Claim C2 as amended: encoding [("x-a","1"),("x-b","")] produces a count
field of 2, the length table [3, 1, 3, 0], and the payload
"x-a\0" "1\0" "x-b\0" "\0" with one sentinel byte after each key and
value not counted in its length; the buffer size equals pairsSize, and
decoding the buffer yields the original list. -/
theorem scenarioLayout :
    serializeHeaders scenarioHeaders =
      u32le 2 ++ (u32le 3 ++ u32le 1 ++ u32le 3 ++ u32le 0) ++
        ([120, 45, 97] ++ [0] ++ [49] ++ [0] ++ [120, 45, 98] ++ [0] ++ [0]) ∧
    (serializeHeaders scenarioHeaders).length = pairsSize scenarioHeaders ∧
    deserializeHeaders (serializeHeaders scenarioHeaders) = scenarioHeaders := by
  decide

/-- Claim C3: after N successfully issued http calls with pairwise distinct
host tokens on a root context with an empty pending table, tearing the
root context down (onDone, which runs cancelPendingRequests) invokes
exactly the N stored continuations, in order, each with the sentinel
handles (0, 0, 0) and its originating context, and leaves the pending
table empty; onDone reports true. -/
theorem cancelPending_invokes_all (calls : List (Nat × Nat × Nat))
    (hnodup : (calls.map Prod.fst).Nodup) :
    (RootContext.onDone (issueAll calls [])).1.1 =
      calls.map (fun c => ⟨c.2.2, c.2.1, 0, 0, 0⟩) ∧
    (RootContext.onDone (issueAll calls [])).1.1.length = calls.length ∧
    (∀ e ∈ (RootContext.onDone (issueAll calls [])).1.1,
      e.headers = 0 ∧ e.body_size = 0 ∧ e.trailers = 0) ∧
    (RootContext.onDone (issueAll calls [])).1.2 = [] ∧
    (RootContext.onDone (issueAll calls [])).2 = true := by
  have htable : issueAll calls [] =
      calls.map (fun c => (c.1, ⟨c.2.1, c.2.2⟩)) := by
    rw [issueAll_eq calls [] (fun c _ => rfl) hnodup]
    simp
  refine ⟨?_, ?_, ?_, ?_, rfl⟩
  · rw [htable]
    simp [RootContext.onDone, cancelPendingRequests]
  · rw [htable]
    simp [RootContext.onDone, cancelPendingRequests]
  · intro e he
    rw [htable] at he
    simp only [RootContext.onDone, cancelPendingRequests, List.map_map] at he
    obtain ⟨x, _, hxe⟩ := List.mem_map.mp he
    subst hxe
    exact ⟨rfl, rfl, rfl⟩
  · simp [RootContext.onDone, cancelPendingRequests]

/-- Witness for C3 with two issued calls. -/
theorem cancelPending_invokes_all_witness :
    (([(10, 1, 100), (11, 2, 101)] : List (Nat × Nat × Nat)).map Prod.fst).Nodup ∧
    (RootContext.onDone (issueAll [(10, 1, 100), (11, 2, 101)] [])).1.1 =
      [⟨100, 1, 0, 0, 0⟩, ⟨101, 2, 0, 0, 0⟩] ∧
    (RootContext.onDone (issueAll [(10, 1, 100), (11, 2, 101)] [])).1.2 = [] := by
  refine ⟨by decide, ?_, ?_⟩
  · exact ((cancelPending_invokes_all _ (by decide)).1).trans (by decide)
  · exact (cancelPending_invokes_all _ (by decide)).2.2.2.1

/-- Claim C4: httpCall returns the boundary status unchanged, and the
pending table it leaves behind holds the new entry under the host token
exactly when the boundary call returned Ok, every other lookup being
exactly as before — on a non-Ok status the table is untouched. -/
theorem httpCall_stores_iff (m : PendingTable) (result : WasmResultValues)
    (token origin_context cb tok : Nat) :
    (httpCall m result token origin_context cb).1 = result ∧
    mget (httpCall m result token origin_context cb).2 tok =
      (if result = WasmResultValues.Ok ∧ tok = token
        then some ⟨origin_context, cb⟩ else mget m tok) := by
  constructor
  · unfold httpCall
    split <;> rfl
  · unfold httpCall
    by_cases hr : result = WasmResultValues.Ok
    · by_cases ht : tok = token
      · subst ht
        simp [hr, mget_mset_self]
      · simp [hr, ht, mget_mset_ne m token tok _ ht]
    · simp [hr]

/-- Claim C5: delivering a response for a registered token invokes exactly
the continuation stored for it, once, with the originating context and
the delivered handles, removes the entry and leaves every other entry in
place without logging an error; delivering a response for an unknown
token invokes no continuation, leaves the table unchanged and logs an
error instead of failing fatally. -/
theorem onHttpCallResponse_correct (m : PendingTable)
    (token headers body_size trailers : Nat) :
    (∀ callback, mget m token = some callback →
      (onHttpCallResponse m token headers body_size trailers).1 =
        [⟨callback.cb, callback.origin_context, headers, body_size, trailers⟩] ∧
      mget (onHttpCallResponse m token headers body_size trailers).2.1 token = none ∧
      (∀ t, t ≠ token →
        mget (onHttpCallResponse m token headers body_size trailers).2.1 t = mget m t) ∧
      (onHttpCallResponse m token headers body_size trailers).2.2 = false) ∧
    (mget m token = none →
      (onHttpCallResponse m token headers body_size trailers).1 = [] ∧
      (onHttpCallResponse m token headers body_size trailers).2.1 = m ∧
      (onHttpCallResponse m token headers body_size trailers).2.2 = true) := by
  constructor
  · intro callback hc
    unfold onHttpCallResponse
    rw [hc]
    exact ⟨rfl, mget_mdel_self m token, fun t ht => mget_mdel_ne m token t ht, rfl⟩
  · intro hc
    unfold onHttpCallResponse
    rw [hc]
    exact ⟨rfl, rfl, rfl⟩

/-- Witness for C5: one registered token, response delivered for it. -/
theorem onHttpCallResponse_correct_witness :
    mget ([(5, ⟨2, 7⟩)] : PendingTable) 5 = some ⟨2, 7⟩ ∧
    (onHttpCallResponse [(5, ⟨2, 7⟩)] 5 11 12 13).1 = [⟨7, 2, 11, 12, 13⟩] ∧
    (onHttpCallResponse [(5, ⟨2, 7⟩)] 5 11 12 13).2.1 = [] := by
  refine ⟨by decide, ?_, by decide⟩
  exact ((onHttpCallResponse_correct [(5, ⟨2, 7⟩)] 5 11 12 13).1 ⟨2, 7⟩ (by decide)).1

/-- Claim C6: a second ensureRootContext call with the same id returns the
very same object identity and leaves the whole state unchanged — in
particular no new context is created (the allocator is unchanged) and
the factory is not invoked again (the invocation counter is unchanged). -/
theorem ensureRootContext_idempotent (factories : List (String × Nat))
    (root_id : String) (s : RuntimeState) (id obj : Nat) (s1 : RuntimeState)
    (h : ensureRootContext factories root_id s id = .ok (obj, s1)) :
    ensureRootContext factories root_id s1 id = .ok (obj, s1) := by
  unfold ensureRootContext at h ⊢
  cases hm : mget s.context_map id with
  | some o =>
    rw [hm] at h
    simp only [Except.ok.injEq, Prod.mk.injEq] at h
    obtain ⟨ho, hs⟩ := h
    subst ho
    subst hs
    rw [hm]
  | none =>
    rw [hm] at h
    cases hf : mget factories root_id with
    | none =>
      rw [hf] at h
      exact absurd h (by simp)
    | some f =>
      rw [hf] at h
      simp only [Except.ok.injEq, Prod.mk.injEq] at h
      obtain ⟨ho, hs⟩ := h
      subst ho
      subst hs
      simp [mget_mset_self]

/-- Witness for C6: a fresh state, a registered factory, id 7 ensured twice. -/
theorem ensureRootContext_idempotent_witness :
    ensureRootContext [("r", 0)] "r" ⟨[], 0, 0⟩ 7 = .ok (0, ⟨[(7, 0)], 1, 1⟩) ∧
    ensureRootContext [("r", 0)] "r" ⟨[(7, 0)], 1, 1⟩ 7 = .ok (0, ⟨[(7, 0)], 1, 1⟩) :=
  ⟨rfl, ensureRootContext_idempotent [("r", 0)] "r" ⟨[], 0, 0⟩ 7 0 ⟨[(7, 0)], 1, 1⟩ rfl⟩

/-- Claim C7: ensureContext(streamId 5, rootId 1) followed by
ensureContext(streamId 5, rootId 2) does not create a second context for
id 5: the first call leaves id 5 registered, and the second call leaves
the entry stored for id 5 exactly as it was, whatever the differing root
id argument does for the root entry. -/
theorem ensureContext_no_duplicate (factories : List (String × Nat))
    (root_id : String) (s0 s1 s2 : RuntimeState)
    (h1 : ensureContext factories root_id s0 5 1 = .ok s1)
    (h2 : ensureContext factories root_id s1 5 2 = .ok s2) :
    mget s2.context_map 5 = mget s1.context_map 5 ∧
    (mget s1.context_map 5).isSome := by
  have hreg := ensureContext_registers factories root_id s0 5 1 s1 h1
  refine ⟨?_, hreg⟩
  unfold ensureContext at h2
  cases he : ensureRootContext factories root_id s1 2 with
  | error e =>
    rw [he] at h2
    exact absurd h2 (by simp)
  | ok p =>
    obtain ⟨pobj, ps⟩ := p
    simp only [he] at h2
    have hp5 : mget ps.context_map 5 = mget s1.context_map 5 := by
      unfold ensureRootContext at he
      cases hm : mget s1.context_map 2 with
      | some o =>
        rw [hm] at he
        simp only [Except.ok.injEq, Prod.mk.injEq] at he
        rw [he.2]
      | none =>
        rw [hm] at he
        cases hf : mget factories root_id with
        | none =>
          rw [hf] at he
          exact absurd he (by simp)
        | some f =>
          rw [hf] at he
          simp only [Except.ok.injEq, Prod.mk.injEq] at he
          rw [← he.2]
          exact mget_mset_ne s1.context_map 2 5 s1.nextObj (by decide)
    cases hc : mget ps.context_map 5 with
    | some o =>
      rw [hc] at h2
      simp only [Except.ok.injEq] at h2
      rw [← h2, ← hp5, hc]
    | none =>
      rw [hc] at hp5
      rw [← hp5] at hreg
      exact absurd hreg (by simp)

/-- Witness for C7: both calls run on a fresh state with one factory. -/
theorem ensureContext_no_duplicate_witness :
    ensureContext [("r", 0)] "r" ⟨[], 0, 0⟩ 5 1 = .ok ⟨[(1, 0), (5, 1)], 2, 1⟩ ∧
    ensureContext [("r", 0)] "r" ⟨[(1, 0), (5, 1)], 2, 1⟩ 5 2 =
      .ok ⟨[(1, 0), (5, 1), (2, 2)], 3, 2⟩ ∧
    mget (⟨[(1, 0), (5, 1), (2, 2)], 3, 2⟩ : RuntimeState).context_map 5 =
      mget (⟨[(1, 0), (5, 1)], 2, 1⟩ : RuntimeState).context_map 5 :=
  ⟨rfl, rfl,
    (ensureContext_no_duplicate [("r", 0)] "r" ⟨[], 0, 0⟩ _ _ rfl rfl).1⟩

/-- Claim C8: when no context is stored for the id and no factory is
registered under the plugin root name, ensureRootContext fails with the
unrecoverable missing-factory error (a thrown Error, which aborts the
module) instead of producing any context. -/
theorem ensureRootContext_missing_factory (factories : List (String × Nat))
    (root_id : String) (s : RuntimeState) (root_context_id : Nat)
    (h1 : mget s.context_map root_context_id = none)
    (h2 : mget factories root_id = none) :
    ensureRootContext factories root_id s root_context_id =
      .error ("Missing root context factory for root id: " ++ root_id) := by
  unfold ensureRootContext
  rw [h1, h2]

/-- Witness for C8: empty registry, no factories. -/
theorem ensureRootContext_missing_factory_witness :
    mget (⟨[], 0, 0⟩ : RuntimeState).context_map 3 = none ∧
    mget ([] : List (String × Nat)) "x" = none ∧
    ensureRootContext [] "x" ⟨[], 0, 0⟩ 3 =
      .error "Missing root context factory for root id: x" :=
  ⟨rfl, rfl, ensureRootContext_missing_factory [] "x" ⟨[], 0, 0⟩ 3 rfl rfl⟩

/-- Claim C9, counterexample: converting the same filled slot twice is not
detected and does silently succeed.  With the slot filled as pointer
1000, size 4, the first conversion leaves the slot bit-for-bit unchanged
(no poisoning), and the second conversion returns exactly what the first
did — the host buffer at pointer 1000, as if it were a valid conversion,
with no error of any kind; the only trace is a second free of the same
pointer. -/
theorem toArrayBuffer_double_counterexample :
    (ArrayBufferReference.toArrayBuffer ⟨1000, 4⟩).2.2 = ⟨1000, 4⟩ ∧
    ArrayBufferReference.toArrayBuffer
        ((ArrayBufferReference.toArrayBuffer ⟨1000, 4⟩).2.2) =
      ArrayBufferReference.toArrayBuffer ⟨1000, 4⟩ ∧
    (ArrayBufferReference.toArrayBuffer
        ((ArrayBufferReference.toArrayBuffer ⟨1000, 4⟩).2.2)).1 =
      ABResult.fromPtr 1000 := by
  decide

/-- Claim C9 as amended: the code itself does not detect a second
conversion of a filled slot — toArrayBuffer leaves both slot fields
unchanged, so re-invoking it on a slot of nonzero size silently returns
the same host buffer again and frees the same pointer a second time; the
violation of the convert-once contract is observable only externally
(through the duplicate free of the pointer), not treated as an error by
the runtime. -/
theorem toArrayBuffer_no_double_detection (r : ArrayBufferReference)
    (h : r.size ≠ 0) :
    (ArrayBufferReference.toArrayBuffer r).2.2 = r ∧
    ArrayBufferReference.toArrayBuffer ((ArrayBufferReference.toArrayBuffer r).2.2) =
      ArrayBufferReference.toArrayBuffer r ∧
    (ArrayBufferReference.toArrayBuffer r).1 = ABResult.fromPtr r.buffer ∧
    (ArrayBufferReference.toArrayBuffer r).2.1 = [r.buffer] := by
  simp [ArrayBufferReference.toArrayBuffer, h]

/-- Witness for C9 at a concrete filled slot. -/
theorem toArrayBuffer_no_double_detection_witness :
    (⟨1001, 8⟩ : ArrayBufferReference).size ≠ 0 ∧
    ArrayBufferReference.toArrayBuffer
        ((ArrayBufferReference.toArrayBuffer ⟨1001, 8⟩).2.2) =
      ArrayBufferReference.toArrayBuffer ⟨1001, 8⟩ :=
  ⟨by decide, (toArrayBuffer_no_double_detection ⟨1001, 8⟩ (by decide)).2.1⟩

/-- Claim C10: whenever the boundary call reports any non-Ok status,
get_header_map_value, get_header_map_flat_pairs and get_buffer_bytes all
return a zero-length buffer rather than the status, and that buffer is
exactly what each returns for a successful lookup of a genuinely empty
value — the two cases are indistinguishable to the caller. -/
theorem accessors_swallow_status (typ : HeaderMapTypeValues)
    (btyp : BufferTypeValues) (key filled : List Nat) (start length : Nat)
    (result : WasmResultValues) (h : result ≠ WasmResultValues.Ok) :
    get_header_map_value typ key result filled = [] ∧
    get_header_map_flat_pairs typ result filled = [] ∧
    get_buffer_bytes btyp start length result filled = [] ∧
    get_header_map_value typ key result filled =
      get_header_map_value typ key WasmResultValues.Ok [] ∧
    get_header_map_flat_pairs typ result filled =
      get_header_map_flat_pairs typ WasmResultValues.Ok [] ∧
    get_buffer_bytes btyp start length result filled =
      get_buffer_bytes btyp start length WasmResultValues.Ok [] := by
  simp [get_header_map_value, get_header_map_flat_pairs, get_buffer_bytes, h]

/-- Witness for C10 at a NotFound status with a nonempty host buffer. -/
theorem accessors_swallow_status_witness :
    WasmResultValues.NotFound ≠ WasmResultValues.Ok ∧
    get_header_map_value HeaderMapTypeValues.RequestHeaders [9]
      WasmResultValues.NotFound [1, 2, 3] = [] :=
  ⟨by decide,
    (accessors_swallow_status HeaderMapTypeValues.RequestHeaders
      BufferTypeValues.HttpRequestBody [9] [1, 2, 3] 0 2
      WasmResultValues.NotFound (by decide)).1⟩

end ProxyRuntime
